import Mathlib

/-!
Verification of the client-side aggregation logic of the emotion-definer
frontend: the diary/mood timeline merge (DiaryPage `allEntries`), the rolling
heart-rate window and polling refresh of RealtimePage (`loadData`,
`setHrHistory`), the chart adapters of StatsPage (`prepareDailyChartData`,
`prepareMonthlyChartData`, `COLORS` cell fills) and the prediction ranking
(`probabilities` sort/slice).

Modelling conventions:
* ISO-8601 timestamp strings compared via `new Date(s).getTime()` are embedded
  as natural numbers (epoch milliseconds); the parse-then-compare is
  order-isomorphic to comparison of the numbers themselves.
* JS `Record<string, number>` objects are embedded as association lists in
  insertion order (JS object iteration order for non-numeric string keys).
* JS numbers are embedded as rationals; `NaN` is not modelled.
* JS `Array.prototype.sort` is stable (ES2019) and, under a consistent
  comparator, produces the unique stable sorted permutation; it is embedded as
  `List.insertionSort` with the comparator's reflexive total preorder, which
  is likewise stable (earlier elements are inserted in front of later
  comparator-equal ones).
-/

/-- Descending order on a key: `a` may precede `b` iff `key b ≤ key a`.
With `List.insertionSort` this is exactly a stable descending sort, matching
the JS comparators `(a, b) => keyOf b - keyOf a`. -/
def keyDesc {α K : Type} [LinearOrder K] (key : α → K) : α → α → Prop :=
  fun a b => key b ≤ key a

instance {α K : Type} [LinearOrder K] (key : α → K) : DecidableRel (keyDesc key) :=
  fun a b => inferInstanceAs (Decidable (key b ≤ key a))

instance {α K : Type} [LinearOrder K] (key : α → K) : IsTotal α (keyDesc key) :=
  ⟨fun a b => le_total (key b) (key a)⟩

instance {α K : Type} [LinearOrder K] (key : α → K) : IsTrans α (keyDesc key) :=
  ⟨fun _ _ _ h₁ h₂ => le_trans h₂ h₁⟩

/-- Stable sort, descending by `key`: the embedding of
`array.sort((a, b) => key(b) - key(a))`. -/
def sortByKeyDesc {α K : Type} [LinearOrder K] (key : α → K) (l : List α) : List α :=
  List.insertionSort (keyDesc key) l

/- ### Data model (src/frontend/src/api/client.ts) -/

/-- `DiaryEntry` of client.ts; `created_at` as epoch milliseconds. -/
structure DiaryEntry where
  id : ℕ
  created_at : ℕ
  content : String
  emotion : String
  intensity : ℚ
  sentiment_score : ℚ
deriving DecidableEq

/-- `EmotionLabel` of client.ts; `timestamp` as epoch milliseconds. -/
structure EmotionLabel where
  id : ℕ
  device_id : Option String
  timestamp : ℕ
  emotion : String
  intensity : ℚ
  note : Option String
deriving DecidableEq

/-- One element of DiaryPage's `allEntries` array: the tagged union
`{ type: 'diary' | 'mood', data, timestamp }` (the `timestamp` field is
recoverable from `data`, so it is not duplicated here). -/
inductive TimelineItem where
  | diary (data : DiaryEntry)
  | mood (data : EmotionLabel)
deriving DecidableEq

/-- The `timestamp` field of a timeline item (`entry.created_at` for diary
entries, `label.timestamp` for mood labels). -/
def TimelineItem.timestamp : TimelineItem → ℕ
  | .diary d => d.created_at
  | .mood m => m.timestamp

/-- Whether the item carries `type: 'mood'`. -/
def TimelineItem.isMoodLabel : TimelineItem → Bool
  | .diary _ => false
  | .mood _ => true

/-- The merge underlying DiaryPage's `allEntries`
(src/frontend/src/pages/DiaryPage.tsx lines 102-105): concatenate the two
record lists and stably sort the result descending by timestamp
(`.sort((a, b) => new Date(b.timestamp).getTime() - new Date(a.timestamp).getTime())`). -/
def mergeTimeline (xs ys : List TimelineItem) : List TimelineItem :=
  sortByKeyDesc TimelineItem.timestamp (xs ++ ys)

/-- DiaryPage's `allEntries`: diary entries tagged `'diary'` first, then
today's mood labels tagged `'mood'`, merged into one descending timeline. -/
def allEntries (entries : List DiaryEntry) (todayLabels : List EmotionLabel) :
    List TimelineItem :=
  mergeTimeline (entries.map .diary) (todayLabels.map .mood)

/- ### Live biometric window (src/frontend RealtimePage `hrHistory`) -/

/-- `WatchData` of client.ts: every metric field independently optional. -/
structure WatchData where
  id : ℕ
  device_id : Option String
  timestamp : String
  heart_rate : Option ℚ
  hrv : Option ℚ
  spo2 : Option ℚ
  stress_level : Option ℚ
  steps : Option ℚ
  calories : Option ℚ
  distance : Option ℚ
  active_minutes : Option ℚ
  sleep_hours : Option ℚ
  sleep_quality : Option ℚ
  body_battery : Option ℚ
  skin_temperature : Option ℚ
  respiratory_rate : Option ℚ
deriving DecidableEq

/-- One `{ time, value }` point of RealtimePage's `hrHistory` state. -/
structure HrPoint where
  time : String
  value : ℚ
deriving DecidableEq

/-- JS `array.slice(-n)`: the last `n` elements (the whole array when it is
shorter than `n`). -/
def sliceLast {α : Type} (n : ℕ) (l : List α) : List α :=
  l.drop (l.length - n)

/-- The `hrHistory` update of RealtimePage's `loadData`
(src RealtimePage lines 41-49): guarded by the truthiness of
`latest?.heart_rate` (absent sample, absent metric, and `0` are all falsy),
it appends `{ time: format(new Date(), 'HH:mm:ss'), value: latest.heart_rate }`
to the previous history and keeps `.slice(-20)`.  The clock string is passed
in as `now`. -/
def pushHr (prev : List HrPoint) (latest : Option WatchData) (now : String) :
    List HrPoint :=
  match latest with
  | none => prev
  | some d =>
    match d.heart_rate with
    | none => prev
    | some v => if v = 0 then prev else sliceLast 20 (prev ++ [⟨now, v⟩])

/-- Iterated refresh cycles acting on the window, starting from the initial
`useState` value `[]`: each cycle supplies the fetched `latest` sample and the
wall-clock label of its arrival. -/
def runPushes (samples : List (Option WatchData × String)) : List HrPoint :=
  samples.foldl (fun w s => pushHr w s.1 s.2) []

/-- Truthiness of the heart-rate metric, exactly the guard
`if (latest?.heart_rate)`. -/
def hrPresent (hr : Option ℚ) : Bool :=
  match hr with
  | none => false
  | some v => decide (v ≠ 0)

/-- The point a present-metric sample contributes to the window
(`getD 0` is never taken under the `hrPresent` guard). -/
def toHrPoint (d : WatchData × String) : HrPoint :=
  ⟨d.2, d.1.heart_rate.getD 0⟩

/- ### Prediction ranking (src/frontend RealtimePage `probabilities`) -/

/-- `EmotionPrediction` of client.ts; the probability distribution is an
association list in the object's insertion order (the order
`Object.entries` iterates). -/
structure EmotionPrediction where
  emotion : String
  confidence : ℚ
  probabilities : List (String × ℚ)
  timestamp : String
deriving DecidableEq

/-- The ranking pipeline of RealtimePage lines 94-96:
`Object.entries(probabilities).sort(([, a], [, b]) => b - a).slice(0, k)` —
a stable sort descending by probability followed by taking the first `k`
entries.  The page instantiates `k = 3` (`displayedProbabilities`). -/
def rankPredictions (probs : List (String × ℚ)) (k : ℕ) : List (String × ℚ) :=
  (sortByKeyDesc Prod.snd probs).take k

/-- The top-3 probability rows RealtimePage actually renders. -/
def displayedProbabilities (pred : EmotionPrediction) : List (String × ℚ) :=
  rankPredictions pred.probabilities 3

/- ### Period aggregates and chart adapters (src/frontend StatsPage) -/

/-- `DailyStats` of client.ts; `emotion_distribution` in iteration order. -/
structure DailyStats where
  date : String
  total_entries : ℕ
  dominant_emotion : String
  avg_intensity : ℚ
  emotion_distribution : List (String × ℚ)
deriving DecidableEq

/-- `WeeklyStats` of client.ts. -/
structure WeeklyStats where
  week_start : String
  week_end : String
  total_entries : ℕ
  daily_stats : List DailyStats
  emotion_trend : List (String × List ℚ)
deriving DecidableEq

/-- `MonthlyStats` of client.ts; `emotion_patterns` maps emotion to a stored
fraction, in iteration order. -/
structure MonthlyStats where
  month : ℕ
  year : ℕ
  total_entries : ℕ
  weekly_stats : List WeeklyStats
  emotion_patterns : List (String × ℚ)
deriving DecidableEq

/-- A row of the daily pie chart: `{ emotion, count }`. -/
structure DailyRow where
  emotion : String
  count : ℚ
deriving DecidableEq

/-- A row of the monthly bar chart: `{ emotion, percentage }`. -/
structure MonthlyRow where
  emotion : String
  percentage : ℚ
deriving DecidableEq

/-- StatsPage `prepareDailyChartData` (lines 73-79): one row per entry of
`dailyStats.emotion_distribution`, in iteration order; `[]` when
`dailyStats` is null. -/
def prepareDailyChartData (dailyStats : Option DailyStats) : List DailyRow :=
  match dailyStats with
  | none => []
  | some s => s.emotion_distribution.map fun e => ⟨e.1, e.2⟩

/-- StatsPage `prepareMonthlyChartData` (lines 90-96): one row per entry of
`monthlyStats.emotion_patterns`, rescaling the stored fraction to a
percentage (`percentage * 100`); `[]` when `monthlyStats` is null. -/
def prepareMonthlyChartData (monthlyStats : Option MonthlyStats) : List MonthlyRow :=
  match monthlyStats with
  | none => []
  | some s => s.emotion_patterns.map fun e => ⟨e.1, e.2 * 100⟩

/-- The fixed palette of StatsPage line 25. -/
def COLORS : List String :=
  ["#007AFF", "#34C759", "#FF2D55", "#AF52DE", "#FF9500", "#FFCC00"]

/-- The fill expression of each chart `Cell`: `COLORS[index % COLORS.length]`
(StatsPage lines 184-186 and 394-396). -/
def cellFill (index : ℕ) : String :=
  COLORS.get ⟨index % COLORS.length, Nat.mod_lt index (by decide)⟩

/-- The emotion-to-fill assignment the daily pie chart renders:
`prepareDailyChartData().map((entry, index) => Cell fill=COLORS[index % COLORS.length])`. -/
def dailyCellFills (dailyStats : Option DailyStats) : List (String × String) :=
  (prepareDailyChartData dailyStats).enum.map fun e => (e.2.emotion, cellFill e.1)

/-- The emotion-to-fill assignment the monthly bar chart renders. -/
def monthlyCellFills (monthlyStats : Option MonthlyStats) : List (String × String) :=
  (prepareMonthlyChartData monthlyStats).enum.map fun e => (e.2.emotion, cellFill e.1)

/- ### Polling controller of RealtimePage (lines 25-55)

The page's event loop is single-threaded and cooperative; its atomic turns
are embedded as events.  `useEffect` on mount calls `loadData()` once and
registers `setInterval(loadData, 10000)`; the cleanup runs `clearInterval`.
Each `loadData` invocation awaits `Promise.all([getLatestWatchData(),
predictEmotion()])` and, on resolution, runs its continuation
(`setLatestData`, `setPrediction`, the `hrHistory` push, `setLoading(false)`)
unconditionally — nothing in lines 31-55 consults a stopped flag or a
generation counter. -/

/-- The `useState`-owned state of RealtimePage. -/
structure RealtimeState where
  latestData : Option WatchData
  prediction : Option EmotionPrediction
  hrHistory : List HrPoint
  loading : Bool
deriving DecidableEq

/-- The initial state of the four `useState` hooks (lines 20-23). -/
def initialRealtimeState : RealtimeState :=
  { latestData := none, prediction := none, hrHistory := [], loading := true }

/-- The continuation of `loadData` after its awaited fetches resolve
successfully (lines 38-48 plus the `finally` of line 52-54). -/
def applyLoadData (s : RealtimeState) (latest : Option WatchData)
    (pred : EmotionPrediction) (now : String) : RealtimeState :=
  { latestData := latest
    prediction := some pred
    hrHistory := pushHr s.hrHistory latest now
    loading := false }

/-- The `catch`/`finally` path of `loadData` (lines 50-54): only `loading`
is cleared; all owned snapshots are retained. -/
def applyLoadDataFailure (s : RealtimeState) : RealtimeState :=
  { s with loading := false }

/-- Atomic event-loop turns of the page:
`tick` — the interval timer fires and invokes `loadData`, issuing a fetch;
`cleanup` — the effect cleanup runs `clearInterval` (stop);
`resolve` — the oldest in-flight `loadData`'s fetches resolve and its
continuation runs;
`reject` — the oldest in-flight `loadData` fails and its `catch` runs. -/
inductive RtEvent where
  | tick
  | cleanup
  | resolve (latest : Option WatchData) (pred : EmotionPrediction) (now : String)
  | reject
deriving DecidableEq

/-- The page system: whether the interval is still registered, how many
`loadData` invocations are in flight, and the owned state. -/
structure RtSystem where
  intervalActive : Bool
  inFlight : ℕ
  page : RealtimeState
deriving DecidableEq

/-- Mount (lines 25-29): `loadData()` is invoked immediately (one fetch in
flight) and the interval is registered. -/
def rtInit : RtSystem :=
  { intervalActive := true, inFlight := 1, page := initialRealtimeState }

/-- One event-loop turn.  A cleared interval never fires again
(`clearInterval`), but a resolving in-flight fetch applies its continuation
to the owned state regardless of `intervalActive` — the code has no
generation counter. -/
def rtStep (s : RtSystem) : RtEvent → RtSystem
  | .tick =>
    if s.intervalActive then { s with inFlight := s.inFlight + 1 } else s
  | .cleanup => { s with intervalActive := false }
  | .resolve latest pred now =>
    if s.inFlight > 0 then
      { intervalActive := s.intervalActive
        inFlight := s.inFlight - 1
        page := applyLoadData s.page latest pred now }
    else s
  | .reject =>
    if s.inFlight > 0 then
      { intervalActive := s.intervalActive
        inFlight := s.inFlight - 1
        page := applyLoadDataFailure s.page }
    else s

/-- Run the page from mount through a sequence of event-loop turns. -/
def rtRun (evs : List RtEvent) : RtSystem :=
  evs.foldl rtStep rtInit

/- ### Concrete fixtures for witnesses and counterexamples -/

/-- A watch sample whose only present metric is a heart rate of 72. -/
def watch72 : WatchData :=
  { id := 1, device_id := none, timestamp := "2026-01-01T10:00:00Z"
    heart_rate := some 72, hrv := none, spo2 := none, stress_level := none
    steps := none, calories := none, distance := none, active_minutes := none
    sleep_hours := none, sleep_quality := none, body_battery := none
    skin_temperature := none, respiratory_rate := none }

/-- A watch sample with no heart-rate metric. -/
def watchNoHr : WatchData :=
  { watch72 with id := 2, heart_rate := none }

/-- A watch sample whose heart-rate metric is present but zero. -/
def watchZeroHr : WatchData :=
  { watch72 with id := 3, heart_rate := some 0 }

/-- A concrete prediction snapshot (integer-valued probabilities keep kernel
evaluation cheap). -/
def predEx : EmotionPrediction :=
  { emotion := "calm", confidence := 1
    probabilities := [("calm", 1), ("joy", 0)]
    timestamp := "2026-01-01T10:00:00Z" }

/-- A concrete diary entry at timestamp 10. -/
def diaryEx : DiaryEntry :=
  { id := 1, created_at := 10, content := "note", emotion := "joy"
    intensity := 1, sentiment_score := 1 }

/-- Two concrete mood labels sharing timestamp 10. -/
def moodEx : EmotionLabel :=
  { id := 1, device_id := none, timestamp := 10, emotion := "calm"
    intensity := 1, note := none }

/-- A second mood label, also at timestamp 10. -/
def moodEx2 : EmotionLabel :=
  { moodEx with id := 2, emotion := "joy" }

/-- Twenty-one identical present-metric refresh cycles. -/
def dsEx : List (WatchData × String) := List.replicate 21 (watch72, "t")

/-- A daily aggregate whose distribution contains only emotion `"x"`. -/
def dailyStatsX : DailyStats :=
  { date := "2026-01-01", total_entries := 1, dominant_emotion := "x"
    avg_intensity := 1, emotion_distribution := [("x", 1)] }

/-- A daily aggregate containing `"y"` before `"x"`. -/
def dailyStatsYX : DailyStats :=
  { date := "2026-01-02", total_entries := 3, dominant_emotion := "y"
    avg_intensity := 1, emotion_distribution := [("y", 2), ("x", 1)] }

/- ### Generic lemmas about the stable descending sort -/

/-- `sortByKeyDesc` sorts: keys are non-increasing along the output. -/
theorem sortByKeyDesc_sorted {α K : Type} [LinearOrder K] (key : α → K)
    (l : List α) : List.Sorted (keyDesc key) (sortByKeyDesc key l) :=
  List.sorted_insertionSort (keyDesc key) l

/-- A nonempty filter has a member satisfying the predicate. -/
theorem exists_of_filter_ne_nil {α : Type} (p : α → Bool) (l : List α)
    (h : l.filter p ≠ []) : ∃ z ∈ l, p z := by
  rcases hl : l.filter p with _ | ⟨z, zs⟩
  · exact absurd hl h
  · have hz : z ∈ l.filter p := by rw [hl]; exact List.mem_cons_self z zs
    rcases List.mem_filter.mp hz with ⟨hzl, hp⟩
    exact ⟨z, hzl, hp⟩

/-- Inserting `x` commutes with filtering an equal-key fiber: every element
the insertion passes over has a strictly larger key than `x`, hence lies in a
different fiber. -/
theorem filter_orderedInsert_fiber {α K : Type} [LinearOrder K] (key : α → K)
    (t : K) (x : α) (l : List α) :
    (l.orderedInsert (keyDesc key) x).filter (fun y => decide (key y = t)) =
      (x :: l).filter (fun y => decide (key y = t)) := by
  induction l with
  | nil => rfl
  | cons b l ih =>
    rw [List.orderedInsert]
    by_cases h : keyDesc key x b
    · rw [if_pos h]
    · rw [if_neg h]
      have hlt : key x < key b := lt_of_not_le h
      rcases eq_or_ne (key b) t with hb | hb
      · rcases eq_or_ne (key x) t with hx | hx
        · exact absurd (hb.trans hx.symm) (ne_of_gt hlt)
        · simp [List.filter_cons, hb, hx, ih]
      · rcases eq_or_ne (key x) t with hx | hx
        · simp [List.filter_cons, hb, hx, ih]
        · simp [List.filter_cons, hb, hx, ih]

/-- Stability of the sort, fiber form: restricted to any single key value,
the sorted output is the input subsequence unchanged. -/
theorem filter_sortByKeyDesc_fiber {α K : Type} [LinearOrder K] (key : α → K)
    (t : K) (l : List α) :
    (sortByKeyDesc key l).filter (fun y => decide (key y = t)) =
      l.filter (fun y => decide (key y = t)) := by
  induction l with
  | nil => rfl
  | cons x l ih =>
    show ((List.insertionSort (keyDesc key) l).orderedInsert (keyDesc key) x).filter _ = _
    rw [filter_orderedInsert_fiber, List.filter_cons, List.filter_cons]
    rw [show (List.insertionSort (keyDesc key) l).filter
        (fun y => decide (key y = t)) = l.filter (fun y => decide (key y = t)) from ih]

/-- Inserting `x` preserves `Pairwise R` when `R` holds automatically across
strictly descending keys (the only pairs whose relative order the insertion
can change) and `x` is `R`-related to everything already present. -/
theorem pairwise_orderedInsert_of_key {α K : Type} [LinearOrder K] (key : α → K)
    (R : α → α → Prop) (hauto : ∀ a b, key a < key b → R b a)
    (x : α) (l : List α) (hx : ∀ z ∈ l, R x z) (hl : l.Pairwise R) :
    (l.orderedInsert (keyDesc key) x).Pairwise R := by
  induction l with
  | nil => simp [List.orderedInsert]
  | cons b l ih =>
    rw [List.orderedInsert]
    by_cases h : keyDesc key x b
    · rw [if_pos h]
      exact List.Pairwise.cons hx hl
    · rw [if_neg h]
      have hlt : key x < key b := lt_of_not_le h
      rcases List.pairwise_cons.mp hl with ⟨hb, hl'⟩
      refine List.Pairwise.cons ?_ (ih (fun z hz => hx z (List.mem_cons_of_mem _ hz)) hl')
      intro w hw
      rcases (List.mem_orderedInsert _).mp hw with rfl | hw
      · exact hauto _ _ hlt
      · exact hb w hw

/-- The sort preserves `Pairwise R` for any `R` holding automatically across
strictly descending keys: only equal-key pairs keep their input order, and
for them `R` survives by stability. -/
theorem pairwise_sortByKeyDesc {α K : Type} [LinearOrder K] (key : α → K)
    (R : α → α → Prop) (hauto : ∀ a b, key a < key b → R b a)
    (l : List α) (hl : l.Pairwise R) : (sortByKeyDesc key l).Pairwise R := by
  induction l with
  | nil => exact List.Pairwise.nil
  | cons x l ih =>
    rcases List.pairwise_cons.mp hl with ⟨hx, hl'⟩
    show ((List.insertionSort (keyDesc key) l).orderedInsert (keyDesc key) x).Pairwise R
    exact pairwise_orderedInsert_of_key key R hauto x _
      (fun z hz => hx z ((List.mem_insertionSort _).mp hz)) (ih hl')

/-- Two lists sorted descending by key and agreeing on every equal-key fiber
are equal. -/
theorem eq_of_sorted_of_fiber_eq {α K : Type} [LinearOrder K] (key : α → K)
    (l₁ l₂ : List α) (h₁ : List.Sorted (keyDesc key) l₁)
    (h₂ : List.Sorted (keyDesc key) l₂)
    (hf : ∀ t, l₁.filter (fun y => decide (key y = t)) =
      l₂.filter (fun y => decide (key y = t))) : l₁ = l₂ := by
  induction l₁ generalizing l₂ with
  | nil =>
    cases l₂ with
    | nil => rfl
    | cons y ys =>
      have h := hf (key y)
      simp [List.filter_cons] at h
  | cons x xs ih =>
    cases l₂ with
    | nil =>
      have h := hf (key x)
      simp [List.filter_cons] at h
    | cons y ys =>
      have hle₁ : key x ≤ key y := by
        have hx := hf (key x)
        have hne : (y :: ys).filter (fun z => decide (key z = key x)) ≠ [] := by
          rw [← hx]
          simp [List.filter_cons]
        rcases exists_of_filter_ne_nil _ _ hne with ⟨z, hz, hp⟩
        have hzx : key z = key x := of_decide_eq_true hp
        rcases List.mem_cons.mp hz with rfl | hz
        · exact le_of_eq hzx.symm
        · exact hzx ▸ List.rel_of_sorted_cons h₂ z hz
      have hle₂ : key y ≤ key x := by
        have hy := hf (key y)
        have hne : (x :: xs).filter (fun z => decide (key z = key y)) ≠ [] := by
          rw [hy]
          simp [List.filter_cons]
        rcases exists_of_filter_ne_nil _ _ hne with ⟨z, hz, hp⟩
        have hzy : key z = key y := of_decide_eq_true hp
        rcases List.mem_cons.mp hz with rfl | hz
        · exact le_of_eq hzy.symm
        · exact hzy ▸ List.rel_of_sorted_cons h₁ z hz
      have hxy : key x = key y := le_antisymm hle₁ hle₂
      have hx := hf (key x)
      rw [List.filter_cons, List.filter_cons] at hx
      simp only [decide_eq_true_eq, if_pos hxy.symm, eq_self_iff_true, if_true] at hx
      rw [List.cons.injEq] at hx
      rcases hx with ⟨hhead, htail⟩
      subst hhead
      have hf' : ∀ t, xs.filter (fun z => decide (key z = t)) =
          ys.filter (fun z => decide (key z = t)) := by
        intro t
        rcases eq_or_ne t (key x) with rfl | ht
        · exact htail
        · have h := hf t
          rw [List.filter_cons, List.filter_cons] at h
          simpa [List.filter_cons, ht.symm, hxy ▸ ht.symm] using h
      rw [ih ys h₁.of_cons h₂.of_cons hf']

/- ### Lemmas about the rolling heart-rate window -/

/-- `slice(-n)` of a list no longer than `n` is the list itself. -/
theorem sliceLast_of_le {α : Type} {n : ℕ} {l : List α} (h : l.length ≤ n) :
    sliceLast n l = l := by
  rw [sliceLast, Nat.sub_eq_zero_of_le h, List.drop_zero]

/-- Keeping the last `n` before appending more and keeping the last `n`
again is the same as keeping the last `n` of the whole: eviction only drops
elements that would be dropped at the end anyway. -/
theorem sliceLast_append_sliceLast {α : Type} (n : ℕ) (l m : List α) :
    sliceLast n (sliceLast n l ++ m) = sliceLast n (l ++ m) := by
  rcases le_or_lt l.length n with h | h
  · rw [sliceLast_of_le h]
  · have h1 : sliceLast n l ++ m = (l ++ m).drop (l.length - n) := by
      rw [sliceLast, List.drop_append_of_le_length (Nat.sub_le _ _)]
    rw [sliceLast, h1, List.drop_drop, sliceLast]
    congr 1
    simp only [List.length_drop, List.length_append]
    omega

/-- One push keeps the window within capacity. -/
theorem pushHr_length_le (w : List HrPoint) (latest : Option WatchData)
    (now : String) (hw : w.length ≤ 20) : (pushHr w latest now).length ≤ 20 := by
  cases latest with
  | none => simpa only [pushHr] using hw
  | some d =>
    cases hhr : d.heart_rate with
    | none => simpa only [pushHr, hhr] using hw
    | some v =>
      by_cases hv : v = 0
      · simpa only [pushHr, hhr, if_pos hv] using hw
      · simp only [pushHr, hhr, if_neg hv, sliceLast, List.length_drop]
        omega

/-- A push whose heart-rate metric is truthy appends exactly one point and
keeps the last 20. -/
theorem pushHr_present (w : List HrPoint) (d : WatchData) (now : String)
    (h : hrPresent d.heart_rate = true) :
    pushHr w (some d) now = sliceLast 20 (w ++ [toHrPoint (d, now)]) := by
  cases hhr : d.heart_rate with
  | none =>
    simp only [hrPresent, hhr] at h
    cases h
  | some v =>
    simp only [hrPresent, hhr, decide_eq_true_eq] at h
    simp only [pushHr, hhr, if_neg h, toHrPoint, Option.getD_some]

/-- A run of truthy-metric refresh cycles acts on the window as: append all
contributed points, then keep the last 20. -/
theorem foldl_pushHr_present (ds : List (WatchData × String)) :
    ∀ w : List HrPoint, w.length ≤ 20 →
    (∀ d ∈ ds, hrPresent d.1.heart_rate = true) →
    (ds.map fun d => ((some d.1 : Option WatchData), d.2)).foldl
        (fun w s => pushHr w s.1 s.2) w =
      sliceLast 20 (w ++ ds.map toHrPoint) := by
  induction ds with
  | nil =>
    intro w hw _
    simp only [List.map_nil, List.foldl_nil, List.append_nil]
    exact (sliceLast_of_le hw).symm
  | cons d ds ih =>
    intro w hw hp
    simp only [List.map_cons, List.foldl_cons]
    rw [pushHr_present w d.1 d.2 (hp d (List.mem_cons_self d ds))]
    rw [ih _ (by rw [sliceLast, List.length_drop]; omega)
      (fun e he => hp e (List.mem_cons_of_mem _ he))]
    rw [sliceLast_append_sliceLast, List.append_assoc, List.singleton_append]

/-- Values already in the window stay; a push can only add the guarded,
necessarily nonzero heart-rate value. -/
theorem pushHr_values (w : List HrPoint) (latest : Option WatchData)
    (now : String) (hw : ∀ p ∈ w, p.value ≠ 0) :
    ∀ p ∈ pushHr w latest now, p.value ≠ 0 := by
  intro p hp
  cases latest with
  | none => exact hw p (by simpa only [pushHr] using hp)
  | some d =>
    cases hhr : d.heart_rate with
    | none =>
      simp only [pushHr, hhr] at hp
      exact hw p hp
    | some v =>
      by_cases hv : v = 0
      · simp only [pushHr, hhr, if_pos hv] at hp
        exact hw p hp
      · simp only [pushHr, hhr, if_neg hv, sliceLast] at hp
        have hp' : p ∈ w ++ [(⟨now, v⟩ : HrPoint)] := List.drop_subset _ _ hp
        rcases List.mem_append.mp hp' with h | h
        · exact hw p h
        · rw [List.mem_singleton] at h
          rw [h]
          exact hv

/- ### Claim theorems -/

/-- C7: for every pair of input record lists, `allEntries` is sorted
descending by timestamp, and when both inputs are empty the result is the
empty sequence, not an error. -/
theorem allEntries_sorted_desc_and_empty :
    (∀ (entries : List DiaryEntry) (todayLabels : List EmotionLabel),
      List.Sorted (fun a b : TimelineItem => b.timestamp ≤ a.timestamp)
        (allEntries entries todayLabels)) ∧
    allEntries [] [] = [] :=
  ⟨fun _ _ => sortByKeyDesc_sorted TimelineItem.timestamp _, rfl⟩

/-- C2: in `allEntries` output, whenever two positions carry equal
timestamps, a diary record is never preceded by a mood-label record: once a
mood label appears at a timestamp, every later item of that timestamp is
also a mood label (equivalently, the diary record of an equal-timestamp pair
precedes the mood-label record). -/
theorem allEntries_tie_diary_precedes_mood
    (entries : List DiaryEntry) (todayLabels : List EmotionLabel)
    (i j : Fin (allEntries entries todayLabels).length) (hij : i < j)
    (hts : ((allEntries entries todayLabels).get i).timestamp =
      ((allEntries entries todayLabels).get j).timestamp)
    (hmood : ((allEntries entries todayLabels).get i).isMoodLabel = true) :
    ((allEntries entries todayLabels).get j).isMoodLabel = true := by
  have hP : (allEntries entries todayLabels).Pairwise
      (fun a b => a.timestamp = b.timestamp →
        a.isMoodLabel = true → b.isMoodLabel = true) := by
    apply pairwise_sortByKeyDesc
    · intro a b hlt hts' _
      exact absurd hts' (ne_of_gt hlt)
    · rw [List.pairwise_append]
      refine ⟨?_, ?_, ?_⟩
      · apply List.pairwise_of_forall_mem_list
        intro a ha b _
        rcases List.mem_map.mp ha with ⟨d, _, rfl⟩
        intro _ hm
        cases hm
      · apply List.pairwise_of_forall_mem_list
        intro a _ b hb
        rcases List.mem_map.mp hb with ⟨m, _, rfl⟩
        intro _ _
        rfl
      · intro a ha b _
        rcases List.mem_map.mp ha with ⟨d, _, rfl⟩
        intro _ hm
        cases hm
  exact List.pairwise_iff_get.mp hP i j hij hts hmood

/-- C2 witness: with no diary entries and two mood labels sharing timestamp
10, the item following a mood label of equal timestamp is a mood label. -/
theorem allEntries_tie_diary_precedes_mood_witness :
    ((allEntries [] [moodEx, moodEx2]).get ⟨1, by decide⟩).isMoodLabel = true :=
  allEntries_tie_diary_precedes_mood [] [moodEx, moodEx2]
    ⟨0, by decide⟩ ⟨1, by decide⟩ (by decide) (by decide) (by decide)

/-- C8: on record lists with no shared timestamp across the two sides, the
merge is commutative. -/
theorem mergeTimeline_comm
    (A B : List TimelineItem)
    (h : ∀ a ∈ A, ∀ b ∈ B, a.timestamp ≠ b.timestamp) :
    mergeTimeline A B = mergeTimeline B A := by
  apply eq_of_sorted_of_fiber_eq TimelineItem.timestamp
  · exact sortByKeyDesc_sorted _ _
  · exact sortByKeyDesc_sorted _ _
  · intro t
    show (sortByKeyDesc TimelineItem.timestamp (A ++ B)).filter _ =
      (sortByKeyDesc TimelineItem.timestamp (B ++ A)).filter _
    rw [filter_sortByKeyDesc_fiber, filter_sortByKeyDesc_fiber,
      List.filter_append, List.filter_append]
    have hcases : A.filter (fun y => decide (y.timestamp = t)) = [] ∨
        B.filter (fun y => decide (y.timestamp = t)) = [] := by
      rcases hA : A.filter (fun y => decide (y.timestamp = t)) with _ | ⟨a, as⟩
      · exact Or.inl hA
      · refine Or.inr (List.filter_eq_nil_iff.mpr ?_)
        have haA : a ∈ A ∧ a.timestamp = t := by
          have hm : a ∈ A.filter (fun y => decide (y.timestamp = t)) := by
            rw [hA]
            exact List.mem_cons_self a as
          rcases List.mem_filter.mp hm with ⟨h1, h2⟩
          exact ⟨h1, of_decide_eq_true h2⟩
        intro b hb hbt
        exact h a haA.1 b hb (haA.2.trans (of_decide_eq_true hbt).symm)
    rcases hcases with h0 | h0 <;> rw [h0] <;> simp

/-- C8 witness: a one-diary list and a one-mood list with distinct
timestamps merge the same way in either order. -/
theorem mergeTimeline_comm_witness :
    mergeTimeline [.diary diaryEx] [.mood { moodEx with timestamp := 11 }] =
      mergeTimeline [.mood { moodEx with timestamp := 11 }] [.diary diaryEx] :=
  mergeTimeline_comm [.diary diaryEx] [.mood { moodEx with timestamp := 11 }]
    (by decide)

/-- C4: the window never exceeds 20 elements, and after 21 present-metric
pushes from the empty window exactly the oldest point is evicted: the result
is the 21 contributed points minus the first, so the window's first element
is the 2nd pushed point. -/
theorem hrHistory_bounded_and_fifo :
    (∀ samples : List (Option WatchData × String), (runPushes samples).length ≤ 20) ∧
    (∀ ds : List (WatchData × String), ds.length = 21 →
      (∀ d ∈ ds, hrPresent d.1.heart_rate = true) →
      runPushes (ds.map fun d => ((some d.1 : Option WatchData), d.2)) =
          (ds.map toHrPoint).drop 1 ∧
        (runPushes (ds.map fun d => ((some d.1 : Option WatchData), d.2))).head? =
          (ds.map toHrPoint)[1]?) := by
  constructor
  · intro samples
    have hinv : ∀ (ss : List (Option WatchData × String)) (w : List HrPoint),
        w.length ≤ 20 → (ss.foldl (fun w s => pushHr w s.1 s.2) w).length ≤ 20 := by
      intro ss
      induction ss with
      | nil => intro w hw; exact hw
      | cons s ss ih =>
        intro w hw
        exact ih _ (pushHr_length_le w s.1 s.2 hw)
    exact hinv samples [] (by simp)
  · intro ds hlen hp
    have h1 : runPushes (ds.map fun d => ((some d.1 : Option WatchData), d.2)) =
        sliceLast 20 (ds.map toHrPoint) := by
      rw [runPushes, foldl_pushHr_present ds [] (by simp) hp, List.nil_append]
    have h2 : sliceLast 20 (ds.map toHrPoint) = (ds.map toHrPoint).drop 1 := by
      rw [sliceLast, List.length_map, hlen]
    refine ⟨h1.trans h2, ?_⟩
    rw [h1, h2, List.head?_drop]

/-- C4 witness: 21 identical present-metric cycles leave a 20-element window
equal to the last 20 contributed points. -/
theorem hrHistory_bounded_and_fifo_witness :
    dsEx.length = 21 ∧
    (runPushes (dsEx.map fun d => ((some d.1 : Option WatchData), d.2))).length ≤ 20 ∧
    runPushes (dsEx.map fun d => ((some d.1 : Option WatchData), d.2)) =
      (dsEx.map toHrPoint).drop 1 :=
  ⟨by decide, hrHistory_bounded_and_fifo.1 _,
    (hrHistory_bounded_and_fifo.2 dsEx (by decide) (by decide)).1⟩

/-- C9: a push whose sample is null or whose heart-rate metric is absent
leaves the window entirely unchanged — same list, no gap placeholder. -/
theorem pushHr_absent_noop :
    (∀ (prev : List HrPoint) (now : String), pushHr prev none now = prev) ∧
    (∀ (prev : List HrPoint) (d : WatchData) (now : String),
      d.heart_rate = none → pushHr prev (some d) now = prev) := by
  constructor
  · intro prev now
    rfl
  · intro prev d now h
    simp only [pushHr, h]

/-- C9 witness: pushing a sample without heart rate onto a one-point window
returns the same window. -/
theorem pushHr_absent_noop_witness :
    watchNoHr.heart_rate = none ∧
    pushHr [⟨"t", 72⟩] (some watchNoHr) "u" = [⟨"t", 72⟩] :=
  ⟨rfl, pushHr_absent_noop.2 [⟨"t", 72⟩] watchNoHr "u" rfl⟩

/-- C10: a present-but-zero heart rate is also dropped (truthiness test), so
every value ever stored in the window is strictly nonzero. -/
theorem pushHr_zero_dropped_and_values_nonzero :
    (∀ (prev : List HrPoint) (d : WatchData) (now : String),
      d.heart_rate = some 0 → pushHr prev (some d) now = prev) ∧
    (∀ (samples : List (Option WatchData × String)) (p : HrPoint),
      p ∈ runPushes samples → p.value ≠ 0) := by
  constructor
  · intro prev d now h
    simp [pushHr, h]
  · intro samples p hp
    have hinv : ∀ (ss : List (Option WatchData × String)) (w : List HrPoint),
        (∀ q ∈ w, q.value ≠ 0) →
        ∀ q ∈ ss.foldl (fun w s => pushHr w s.1 s.2) w, q.value ≠ 0 := by
      intro ss
      induction ss with
      | nil => intro w hw; exact hw
      | cons s ss ih =>
        intro w hw
        exact ih _ (pushHr_values w s.1 s.2 hw)
    exact hinv samples [] (by simp) p hp

/-- C10 witness: the zero-heart-rate sample is dropped, and the point stored
by a 72-bpm sample has nonzero value. -/
theorem pushHr_zero_dropped_and_values_nonzero_witness :
    watchZeroHr.heart_rate = some 0 ∧
    pushHr [] (some watchZeroHr) "t" = [] ∧
    (⟨"t", 72⟩ : HrPoint) ∈ runPushes [(some watch72, "t")] ∧
    (⟨"t", 72⟩ : HrPoint).value ≠ 0 :=
  ⟨rfl, pushHr_zero_dropped_and_values_nonzero.1 [] watchZeroHr "t" rfl, by decide,
    pushHr_zero_dropped_and_values_nonzero.2 [(some watch72, "t")] ⟨"t", 72⟩ (by decide)⟩

/-- C5: the ranker's output is sorted descending by probability; restricted
to any probability value the full sort preserves the input (insertion)
order, i.e. ties are broken stably; and on `{a: 0.5, b: 0.5, c: 0.1}` with
`K = 2` the output is exactly `[a, b]` in that order. -/
theorem rankPredictions_spec :
    (∀ (probs : List (String × ℚ)) (k : ℕ),
      List.Sorted (fun a b : String × ℚ => b.2 ≤ a.2) (rankPredictions probs k)) ∧
    (∀ (probs : List (String × ℚ)) (t : ℚ),
      (rankPredictions probs probs.length).filter (fun p => decide (p.2 = t)) =
        probs.filter (fun p => decide (p.2 = t))) ∧
    rankPredictions [("a", 1/2), ("b", 1/2), ("c", 1/10)] 2 =
      [("a", 1/2), ("b", 1/2)] := by
  refine ⟨?_, ?_, ?_⟩
  · intro probs k
    exact List.Pairwise.sublist (List.take_sublist k _)
      (sortByKeyDesc_sorted Prod.snd probs)
  · intro probs t
    have hall : rankPredictions probs probs.length = sortByKeyDesc Prod.snd probs := by
      rw [rankPredictions]
      exact List.take_of_length_le (by rw [sortByKeyDesc, List.length_insertionSort])
    rw [hall, filter_sortByKeyDesc_fiber]
  · norm_num [rankPredictions, sortByKeyDesc, List.insertionSort, List.orderedInsert, keyDesc]

/-- C6: the monthly adapter yields one row per `emotion_patterns` entry, in
the mapping's iteration order, rescaling the stored fraction by 100; on
`{x: 0.25, y: 0.75}` it yields exactly
`[{emotion: x, percentage: 25}, {emotion: y, percentage: 75}]`. -/
theorem prepareMonthlyChartData_spec :
    (∀ (s : MonthlyStats) (i : ℕ),
      (prepareMonthlyChartData (some s))[i]? =
        (s.emotion_patterns[i]?).map fun e => (⟨e.1, e.2 * 100⟩ : MonthlyRow)) ∧
    (∀ s : MonthlyStats,
      (prepareMonthlyChartData (some s)).length = s.emotion_patterns.length) ∧
    prepareMonthlyChartData (some ⟨1, 2026, 4, [], [("x", 1/4), ("y", 3/4)]⟩) =
      [⟨"x", 25⟩, ⟨"y", 75⟩] := by
  refine ⟨?_, ?_, ?_⟩
  · intro s i
    simp [prepareMonthlyChartData]
  · intro s
    simp [prepareMonthlyChartData]
  · norm_num [prepareMonthlyChartData]

/-- C3 counterexample: emotion `"x"` is present in both `dailyStatsX` and
`dailyStatsYX`, yet the rendered fills differ (`COLORS[0]` vs `COLORS[1]`),
because the fill is indexed by the entry's position, not by the emotion's
identity — the color of `e` is not a pure function of `e` alone. -/
theorem cellFill_not_function_of_emotion :
    List.lookup "x" (dailyCellFills (some dailyStatsX)) = some "#007AFF" ∧
    List.lookup "x" (dailyCellFills (some dailyStatsYX)) = some "#34C759" ∧
    List.lookup "x" (dailyCellFills (some dailyStatsX)) ≠
      List.lookup "x" (dailyCellFills (some dailyStatsYX)) :=
  ⟨by decide, by decide, by decide⟩

/-- C3 amended: the fill color of a chart cell is a pure function of the
cell's index within the rendered distribution — `COLORS[index % 6]`, shared
by the daily and monthly charts — not of the emotion's identity; the same
emotion keeps the same color across refreshes only while it keeps the same
position. -/
theorem cellFill_pure_function_of_index :
    (∀ (ds : Option DailyStats) (i : ℕ) (p : String × String),
      (dailyCellFills ds)[i]? = some p → p.2 = cellFill i) ∧
    (∀ (ms : Option MonthlyStats) (i : ℕ) (p : String × String),
      (monthlyCellFills ms)[i]? = some p → p.2 = cellFill i) := by
  constructor
  · intro ds i p hp
    simp only [dailyCellFills, List.getElem?_map, List.getElem?_enum] at hp
    rcases hrow : (prepareDailyChartData ds)[i]? with _ | row
    · rw [hrow] at hp
      cases hp
    · rw [hrow] at hp
      simp only [Option.map_some'] at hp
      rw [← Option.some_inj.mp hp]
  · intro ms i p hp
    simp only [monthlyCellFills, List.getElem?_map, List.getElem?_enum] at hp
    rcases hrow : (prepareMonthlyChartData ms)[i]? with _ | row
    · rw [hrow] at hp
      cases hp
    · rw [hrow] at hp
      simp only [Option.map_some'] at hp
      rw [← Option.some_inj.mp hp]

/-- C3 amended witness: the first cell of `dailyStatsX`'s chart is filled
with `cellFill 0 = COLORS[0]`. -/
theorem cellFill_pure_function_of_index_witness :
    (dailyCellFills (some dailyStatsX))[0]? = some ("x", "#007AFF") ∧
    ("x", "#007AFF").2 = cellFill 0 :=
  ⟨by decide,
    cellFill_pure_function_of_index.1 (some dailyStatsX) 0 ("x", "#007AFF") (by decide)⟩

/-- C1 at the failing input: after the effect cleanup (`clearInterval`) runs
with one `loadData` fetch still in flight, that fetch's resolution still
mutates the owned state — `latestData`, `prediction` and `hrHistory` are all
updated from the late response instead of being discarded (the code has no
generation counter; `clearInterval` only prevents future timer firings). -/
theorem rtStopped_late_response_mutates :
    (rtRun [RtEvent.cleanup]).intervalActive = false ∧
    (rtRun [RtEvent.cleanup]).inFlight = 1 ∧
    (rtRun [RtEvent.cleanup, RtEvent.resolve (some watch72) predEx "10:00:05"]).page ≠
      (rtRun [RtEvent.cleanup]).page ∧
    (rtRun [RtEvent.cleanup,
      RtEvent.resolve (some watch72) predEx "10:00:05"]).page.latestData = some watch72 ∧
    (rtRun [RtEvent.cleanup,
      RtEvent.resolve (some watch72) predEx "10:00:05"]).page.prediction = some predEx ∧
    (rtRun [RtEvent.cleanup,
      RtEvent.resolve (some watch72) predEx "10:00:05"]).page.hrHistory = [⟨"10:00:05", 72⟩] :=
  ⟨rfl, rfl, by decide, rfl, rfl, by decide⟩
